import Mathlib

set_option maxRecDepth 100000

/-!
Shallow embedding of the L0 link-layer framing core: the sequence
discipline and packet encoder from src/l0/comm/packet.rs, and the
byte-at-a-time receive state machine from src/l0/comm/parser.rs.
Bytes are modelled as Nat (all wire values are < 256); the fallible
unwrap calls inside Parser::parse are modelled with Option, where
none marks the panic.
-/

/-- Wire constant SYNC_REQ (0xff). -/
def SYNC_REQ : Nat := 0xff

/-- Wire constant SYNC_ACK (0xfe). -/
def SYNC_ACK : Nat := 0xfe

/-- Bit READY of SyncState. -/
def SYNC_STATE_READY : Nat := 0x01

/-- Bit RECV of SyncState. -/
def SYNC_STATE_RECV : Nat := 0x02

/-- Sequencer::next on PacketSeq (u8): 1 when n >= 0xef, else n + 1. -/
def seqNext (n : Nat) : Nat := if n ≥ 0xef then 1 else n + 1

/-- Sequencer::is_valid on PacketSeq (u8): n > 0 and n < 0xf0. -/
def seqIsValid (n : Nat) : Bool := decide (n > 0) && decide (n < 0xf0)

/-- The Packet record: seq, code, payload data. -/
structure Packet where
  seq : Nat
  code : Nat
  data : List Nat
deriving DecidableEq, Repr

/-- A byte sink that accepts every write in full (the Vec<u8> writer of
the tests): write appends the bytes and reports their count. -/
structure ByteSink where
  buf : List Nat
deriving DecidableEq, Repr

/-- ByteSink.write: append and return the number of bytes written. -/
def ByteSink.write (w : ByteSink) (bs : List Nat) : ByteSink × Nat :=
  (⟨w.buf ++ bs⟩, bs.length)

/-- Packet::encode, with the head array of packet.rs inlined:
head = [seq, code & 0x8f, data.len() as u8]; when head[2] < 7 the length
nibble is folded into head[1] and two bytes are written, otherwise
head[1] gets the escape nibble 0x70 and three bytes are written; then the
payload follows when non-empty. Returns the written sink and the count. -/
def Packet.encode (p : Packet) (w : ByteSink) : ByteSink × Nat :=
  let head2 : Nat := p.data.length % 256
  let wc :=
    if head2 < 7 then
      w.write [p.seq, (p.code &&& 0x8f) ||| ((head2 <<< 4) &&& 0x70)]
    else
      w.write [p.seq, (p.code &&& 0x8f) ||| 0x70, head2]
  if p.data.length > 0 then
    let wc2 := wc.1.write p.data
    (wc2.1, wc.2 + wc2.2)
  else
    wc

/-- The byte sequence produced by encoding a packet onto an empty sink. -/
def enc (p : Packet) : List Nat := (p.encode ⟨[]⟩).1.buf

/-- SyncStateReader::is_ready. -/
def isReady (s : Nat) : Bool := s &&& SYNC_STATE_READY != 0

/-- SyncStateReader::is_receiving. -/
def isReceiving (s : Nat) : Bool := s &&& SYNC_STATE_RECV != 0

/-- The TimerAction verdict. -/
inductive TimerAction
  | NoChange
  | Restart
  | Stop
deriving DecidableEq, Repr

/-- The ParseResult record: sync byte to transmit, sync state bits, and
an optional completed packet. -/
structure ParseResult where
  sync : Nat
  state : Nat
  packet : Option Packet
deriving DecidableEq, Repr

/-- ParseResult::timer_action. -/
def ParseResult.timer_action (r : ParseResult) : TimerAction :=
  if isReceiving r.state || r.sync == SYNC_REQ then .Restart
  else if isReady r.state then .Stop
  else .NoChange

/-- The ParsingState enum of parser.rs. -/
inductive ParsingState
  | SyncAck
  | SyncReqSeq
  | SyncAckSeq
  | MsgSeq
  | MsgAckSeq
  | MsgCode
  | MsgLen
  | MsgData
deriving DecidableEq, Repr

/-- The Parser record: hidden state of the receive state machine. -/
structure Parser where
  state : ParsingState
  peer_seq : Nat
  packet : Option Packet
  data_len : Nat
deriving DecidableEq, Repr

/-- Parser::new. -/
def Parser.new : Parser := ⟨.SyncAck, 0, none, 0⟩

/-- Parser::reset: set state to SyncAck, leave every other field alone,
and return sync=SYNC_REQ, state=0, packet=None. -/
def Parser.reset (p : Parser) : Parser × ParseResult :=
  ({ p with state := .SyncAck }, ⟨SYNC_REQ, 0, none⟩)

/-- Parser::result_from_state. -/
def Parser.resultFromState (p : Parser) : ParseResult :=
  ⟨0,
    match p.state with
    | .SyncAck => 0
    | .SyncReqSeq | .SyncAckSeq => SYNC_STATE_RECV
    | .MsgSeq => SYNC_STATE_READY
    | .MsgAckSeq | .MsgCode | .MsgLen | .MsgData =>
        SYNC_STATE_READY ||| SYNC_STATE_RECV,
    none⟩

/-- Parser::transit_and_result. -/
def Parser.transitAndResult (p : Parser) (s : ParsingState) :
    Parser × ParseResult :=
  let q : Parser := { p with state := s }
  (q, q.resultFromState)

/-- Parser::packet_ready: go to MsgSeq, move the packet slot out, and
return sync=0, state=READY with the taken packet. -/
def Parser.packetReady (p : Parser) : Parser × ParseResult :=
  ({ p with state := .MsgSeq, packet := none },
   ⟨0, SYNC_STATE_READY, p.packet⟩)

/-- Parser::parse, byte by byte. The unwrap calls of the MsgCode and
MsgData arms become the none branches here: none models the panic. -/
def Parser.parse (p : Parser) (b : Nat) : Option (Parser × ParseResult) :=
  match p.state with
  | .SyncAck =>
      if b = SYNC_REQ then some (p.transitAndResult .SyncReqSeq)
      else if b = SYNC_ACK then some (p.transitAndResult .SyncAckSeq)
      else some (p, p.resultFromState)
  | .SyncReqSeq =>
      if seqIsValid b then
        some ({ p with peer_seq := b, state := .MsgSeq },
              ⟨SYNC_ACK, SYNC_STATE_READY, none⟩)
      else some p.reset
  | .SyncAckSeq =>
      if seqIsValid b then
        some (Parser.transitAndResult { p with peer_seq := b } .MsgSeq)
      else some p.reset
  | .MsgSeq =>
      if b = SYNC_REQ then some (p.transitAndResult .SyncReqSeq)
      else if b = SYNC_ACK then some (p.transitAndResult .MsgAckSeq)
      else if b = p.peer_seq then
        some (Parser.transitAndResult
          { p with packet := some ⟨b, 0, []⟩,
                   peer_seq := seqNext p.peer_seq } .MsgCode)
      else some p.reset
  | .MsgAckSeq =>
      if b = p.peer_seq then some (p.transitAndResult .MsgSeq)
      else some p.reset
  | .MsgCode =>
      match p.packet with
      | none => none
      | some pkt =>
        let q : Parser := { p with packet := some { pkt with code := b &&& 0x8f } }
        let dl : Nat := (b >>> 4) &&& 7
        if dl = 0 then some q.packetReady
        else if dl = 7 then some (q.transitAndResult .MsgLen)
        else some (Parser.transitAndResult { q with data_len := dl } .MsgData)
  | .MsgLen =>
      if b ≥ 0x80 then some p.reset
      else if b = 0 then some p.packetReady
      else some (Parser.transitAndResult { p with data_len := b } .MsgData)
  | .MsgData =>
      match p.packet with
      | none => none
      | some pkt =>
        let pkt2 : Packet := { pkt with data := pkt.data ++ [b] }
        let q : Parser := { p with packet := some pkt2 }
        if pkt2.data.length ≥ p.data_len then some q.packetReady
        else some (q, q.resultFromState)

/-- Parser::timeout: reset unless idle in MsgSeq. -/
def Parser.timeout (p : Parser) : Parser × ParseResult :=
  if p.state ≠ .MsgSeq then p.reset else (p, p.resultFromState)

/-- Feed a list of bytes one at a time, collecting every ParseResult;
none when some parse call would panic. -/
def Parser.feed : Parser → List Nat → Option (Parser × List ParseResult)
  | p, [] => some (p, [])
  | p, b :: bs =>
    match p.parse b with
    | none => none
    | some (p2, r) =>
      match p2.feed bs with
      | none => none
      | some (p3, rs) => some (p3, r :: rs)

/-- Parser states reachable from a fresh Parser by parse, timeout and
reset calls (a parse step only counts when it does not panic). -/
inductive Reachable : Parser → Prop
  | init : Reachable Parser.new
  | parseStep {p p2 : Parser} {b : Nat} {r : ParseResult} :
      Reachable p → p.parse b = some (p2, r) → Reachable p2
  | timeoutStep {p p2 : Parser} {r : ParseResult} :
      Reachable p → p.timeout = (p2, r) → Reachable p2
  | resetStep {p p2 : Parser} {r : ParseResult} :
      Reachable p → p.reset = (p2, r) → Reachable p2

/-- C5: sequence discipline over every byte. -/
theorem seq_discipline :
    ∀ b < 256,
      (seqIsValid b = true ↔ 1 ≤ b ∧ b ≤ 0xef) ∧
      (1 ≤ seqNext b ∧ seqNext b ≤ 0xef) ∧
      seqNext 0xef = 1 ∧
      (seqIsValid b = true → b < 0xef → seqNext b = b + 1) ∧
      (seqIsValid b = false → seqNext b = 1) := by
  decide

/-- C5 witness at b = 3. -/
theorem seq_discipline_witness :
    (seqIsValid 3 = true ↔ 1 ≤ 3 ∧ 3 ≤ 0xef) ∧
    (1 ≤ seqNext 3 ∧ seqNext 3 ≤ 0xef) ∧
    seqNext 0xef = 1 ∧
    (seqIsValid 3 = true → 3 < 0xef → seqNext 3 = 3 + 1) ∧
    (seqIsValid 3 = false → seqNext 3 = 1) :=
  seq_discipline 3 (by decide)

/-- C8: reset always returns sync=SYNC_REQ, state=0, packet=None, sets
the parsing state to SyncAck and changes no other field; hence an
immediate second reset returns the same result. -/
theorem reset_frame (p : Parser) :
    p.reset = ({ p with state := .SyncAck }, ⟨SYNC_REQ, 0, none⟩) ∧
    (p.reset.1).reset.2 = p.reset.2 := by
  constructor <;> rfl

/-- C4: timeout in MsgSeq returns sync=0, state=READY, packet=None and
leaves the parser untouched; in any other state it performs reset,
returning sync=SYNC_REQ, state=0, packet=None. -/
theorem timeout_behaviour (p : Parser) :
    p.timeout =
      if p.state = .MsgSeq then (p, ⟨0, SYNC_STATE_READY, none⟩)
      else ({ p with state := .SyncAck }, ⟨SYNC_REQ, 0, none⟩) := by
  cases h : p.state <;>
    simp [Parser.timeout, Parser.reset, Parser.resultFromState, h]

/-- C2: on a sink that accepts every write in full, encode writes exactly
the 2-byte header followed by the payload when the length is below 7
(returning 2 + len), and the 3-byte header followed by the payload
otherwise (returning 3 + len). -/
theorem encode_exact (p : Packet) (h : p.data.length ≤ 127) :
    p.encode ⟨[]⟩ =
      if p.data.length < 7 then
        (⟨[p.seq, (p.code &&& 0x8f) ||| ((p.data.length <<< 4) &&& 0x70)] ++ p.data⟩,
         2 + p.data.length)
      else
        (⟨[p.seq, (p.code &&& 0x8f) ||| 0x70, p.data.length] ++ p.data⟩,
         3 + p.data.length) := by
  have hm : p.data.length % 256 = p.data.length := Nat.mod_eq_of_lt (by omega)
  by_cases h7 : p.data.length < 7
  · by_cases h0 : p.data.length = 0
    · have hd : p.data = [] := List.length_eq_zero.mp h0
      simp [Packet.encode, ByteSink.write, hm, h7, hd]
    · have hpos : 0 < p.data.length := Nat.pos_of_ne_zero h0
      simp [Packet.encode, ByteSink.write, hm, h7, hpos]
  · have hpos : 0 < p.data.length := by omega
    simp [Packet.encode, ByteSink.write, hm, h7, hpos]

/-- C2 witness at the packet (seq=1, code=2, data=[5]). -/
theorem encode_exact_witness :
    (Packet.mk 1 2 [5]).data.length ≤ 127 ∧
    (Packet.mk 1 2 [5]).encode ⟨[]⟩ = (⟨[1, 0x12, 5]⟩, 3) :=
  ⟨by decide, (encode_exact ⟨1, 2, [5]⟩ (by decide)).trans (by decide)⟩

/-- Masking a byte with 0x8f clears the reserved bits 0x70. -/
theorem masked_code_reserved (b : Nat) : (b &&& 0x8f) &&& 0x70 = 0 := by
  rw [Nat.land_assoc, show (0x8f &&& 0x70 : Nat) = 0 from by decide, Nat.and_zero]

/-- The successor of any sequence number is a valid sequence number. -/
theorem seqNext_valid (n : Nat) : seqIsValid (seqNext n) = true := by
  by_cases h : n ≥ 0xef
  · simp [seqNext, seqIsValid, h]
  · simp [seqNext, seqIsValid, h]
    omega

/-- The state invariant maintained by the receive state machine: the
packet slot is filled with a well-formed in-progress packet whenever a
frame is being decoded, and the peer sequence is valid whenever a state
that reads it is active. -/
def ParserInv (p : Parser) : Prop :=
  (p.state = .MsgCode → ∃ pkt, p.packet = some pkt ∧ pkt.data = []) ∧
  (p.state = .MsgLen → ∃ pkt, p.packet = some pkt ∧ pkt.data = [] ∧
      pkt.code &&& 0x70 = 0) ∧
  (p.state = .MsgData → ∃ pkt, p.packet = some pkt ∧ pkt.code &&& 0x70 = 0 ∧
      pkt.data.length < p.data_len ∧ p.data_len ≤ 127) ∧
  ((p.state = .MsgSeq ∨ p.state = .MsgAckSeq ∨ p.state = .MsgCode ∨
    p.state = .MsgLen ∨ p.state = .MsgData) → seqIsValid p.peer_seq = true)

/-- A parser whose state is SyncAck satisfies the invariant outright. -/
theorem inv_of_syncAck {p : Parser} (h : p.state = .SyncAck) : ParserInv p := by
  refine ⟨?_, ?_, ?_, ?_⟩ <;> rw [h] <;> simp

/-- reset preserves the invariant. -/
theorem inv_reset {p p2 : Parser} {r : ParseResult}
    (h : p.reset = (p2, r)) : ParserInv p2 := by
  simp only [Parser.reset, Prod.mk.injEq] at h
  obtain ⟨hp2, -⟩ := h
  exact inv_of_syncAck (by rw [← hp2])

/-- timeout preserves the invariant. -/
theorem inv_timeout {p p2 : Parser} {r : ParseResult}
    (hI : ParserInv p) (h : p.timeout = (p2, r)) : ParserInv p2 := by
  unfold Parser.timeout at h
  split at h
  · exact inv_reset h
  · obtain ⟨hp2, -⟩ := Prod.mk.inj h
    rw [← hp2]
    exact hI

/-- parse preserves the invariant. -/
theorem inv_parse {p p2 : Parser} {b : Nat} {r : ParseResult}
    (hI : ParserInv p) (h : p.parse b = some (p2, r)) : ParserInv p2 := by
  obtain ⟨st, ps, pk, dl⟩ := p
  obtain ⟨h1, h2, h3, h4⟩ := hI
  cases st
  case SyncAck =>
    simp only [Parser.parse, Parser.transitAndResult, Option.some.injEq,
      Prod.mk.injEq] at h
    split at h
    · obtain ⟨hp2, -⟩ := Prod.mk.inj (Option.some.inj h)
      subst hp2
      exact ⟨by simp, by simp, by simp, by simp⟩
    split at h
    · obtain ⟨hp2, -⟩ := Prod.mk.inj (Option.some.inj h)
      subst hp2
      exact ⟨by simp, by simp, by simp, by simp⟩
    · obtain ⟨hp2, -⟩ := Prod.mk.inj (Option.some.inj h)
      subst hp2
      exact inv_of_syncAck rfl
  case SyncReqSeq =>
    simp only [Parser.parse] at h
    split at h
    case isTrue hv =>
      obtain ⟨hp2, -⟩ := Prod.mk.inj (Option.some.inj h)
      subst hp2
      exact ⟨by simp, by simp, by simp, fun _ => hv⟩
    case isFalse =>
      exact inv_reset (Option.some.inj h)
  case SyncAckSeq =>
    simp only [Parser.parse, Parser.transitAndResult] at h
    split at h
    case isTrue hv =>
      obtain ⟨hp2, -⟩ := Prod.mk.inj (Option.some.inj h)
      subst hp2
      exact ⟨by simp, by simp, by simp, fun _ => hv⟩
    case isFalse =>
      exact inv_reset (Option.some.inj h)
  case MsgSeq =>
    have hps : seqIsValid ps = true := h4 (by simp)
    simp only [Parser.parse, Parser.transitAndResult, Option.some.injEq,
      Prod.mk.injEq] at h
    split at h
    · obtain ⟨hp2, -⟩ := Prod.mk.inj (Option.some.inj h)
      subst hp2
      exact ⟨by simp, by simp, by simp, fun _ => hps⟩
    split at h
    · obtain ⟨hp2, -⟩ := Prod.mk.inj (Option.some.inj h)
      subst hp2
      exact ⟨by simp, by simp, by simp, fun _ => hps⟩
    split at h
    · obtain ⟨hp2, -⟩ := Prod.mk.inj (Option.some.inj h)
      subst hp2
      exact ⟨fun _ => ⟨⟨b, 0, []⟩, rfl, rfl⟩, by simp, by simp,
        fun _ => seqNext_valid ps⟩
    · exact inv_reset (Option.some.inj h)
  case MsgAckSeq =>
    have hps : seqIsValid ps = true := h4 (by simp)
    simp only [Parser.parse, Parser.transitAndResult, Option.some.injEq,
      Prod.mk.injEq] at h
    split at h
    · obtain ⟨hp2, -⟩ := Prod.mk.inj (Option.some.inj h)
      subst hp2
      exact ⟨by simp, by simp, by simp, fun _ => hps⟩
    · exact inv_reset (Option.some.inj h)
  case MsgCode =>
    have hps : seqIsValid ps = true := h4 (by simp)
    obtain ⟨pkt0, hpk, hdata⟩ := h1 rfl
    simp only at hpk
    subst hpk
    simp only [Parser.parse, Parser.transitAndResult, Parser.packetReady,
      Option.some.injEq, Prod.mk.injEq] at h
    split at h
    · obtain ⟨hp2, -⟩ := Prod.mk.inj (Option.some.inj h)
      subst hp2
      exact ⟨by simp, by simp, by simp, fun _ => hps⟩
    split at h
    · obtain ⟨hp2, -⟩ := Prod.mk.inj (Option.some.inj h)
      subst hp2
      exact ⟨by simp,
        fun _ => ⟨{ pkt0 with code := b &&& 0x8f }, rfl, hdata,
          masked_code_reserved b⟩,
        by simp, fun _ => hps⟩
    case isFalse hne0 hne7 =>
      obtain ⟨hp2, -⟩ := Prod.mk.inj (Option.some.inj h)
      subst hp2
      refine ⟨by simp, by simp, ?_, fun _ => hps⟩
      intro
      refine ⟨{ pkt0 with code := b &&& 0x8f }, rfl, masked_code_reserved b,
        ?_, ?_⟩
      · simpa [hdata] using Nat.pos_of_ne_zero hne0
      · exact le_trans Nat.and_le_right (by norm_num)
  case MsgLen =>
    have hps : seqIsValid ps = true := h4 (by simp)
    obtain ⟨pkt0, hpk, hdata, hcode⟩ := h2 rfl
    simp only at hpk
    subst hpk
    simp only [Parser.parse, Parser.transitAndResult, Parser.packetReady,
      Option.some.injEq, Prod.mk.injEq] at h
    split at h
    · exact inv_reset (Option.some.inj h)
    split at h
    · obtain ⟨hp2, -⟩ := Prod.mk.inj (Option.some.inj h)
      subst hp2
      exact ⟨by simp, by simp, by simp, fun _ => hps⟩
    case isFalse hge h0 =>
      obtain ⟨hp2, -⟩ := Prod.mk.inj (Option.some.inj h)
      subst hp2
      refine ⟨by simp, by simp, ?_, fun _ => hps⟩
      intro
      refine ⟨pkt0, rfl, hcode, ?_, ?_⟩
      · show pkt0.data.length < b
        rw [hdata]
        simp only [List.length_nil]
        omega
      · show b ≤ 127
        omega
  case MsgData =>
    have hps : seqIsValid ps = true := h4 (by simp)
    obtain ⟨pkt0, hpk, hcode, hlt, hmax⟩ := h3 rfl
    simp only at hpk hlt hmax
    subst hpk
    simp only [Parser.parse, Parser.transitAndResult, Parser.packetReady,
      Option.some.injEq, Prod.mk.injEq] at h
    split at h
    · obtain ⟨hp2, -⟩ := Prod.mk.inj (Option.some.inj h)
      subst hp2
      exact ⟨by simp, by simp, by simp, fun _ => hps⟩
    case isFalse hge =>
      obtain ⟨hp2, -⟩ := Prod.mk.inj (Option.some.inj h)
      subst hp2
      refine ⟨by simp, by simp, ?_, fun _ => hps⟩
      intro
      refine ⟨{ pkt0 with data := pkt0.data ++ [b] }, rfl, hcode, ?_, hmax⟩
      simp only [List.length_append, List.length_cons, List.length_nil] at hge ⊢
      omega

/-- Every reachable parser satisfies the invariant. -/
theorem reachable_inv {p : Parser} (h : Reachable p) : ParserInv p := by
  induction h with
  | init => exact inv_of_syncAck rfl
  | parseStep _ hstep ih => exact inv_parse ih hstep
  | timeoutStep _ hstep ih => exact inv_timeout ih hstep
  | resetStep _ hstep => exact inv_reset hstep

/-- C9: parse is panic-free: on every reachable parser the packet slot
is filled whenever the parser is in MsgCode, MsgLen or MsgData, and
parse returns a result on every byte. -/
theorem parse_panic_free {p : Parser} (h : Reachable p) :
    ((p.state = .MsgCode ∨ p.state = .MsgLen ∨ p.state = .MsgData) →
      p.packet.isSome) ∧
    ∀ b, (p.parse b).isSome := by
  obtain ⟨h1, h2, h3, h4⟩ := reachable_inv h
  constructor
  · rintro (hs | hs | hs)
    · obtain ⟨pkt, hpk, -⟩ := h1 hs
      simp [hpk]
    · obtain ⟨pkt, hpk, -⟩ := h2 hs
      simp [hpk]
    · obtain ⟨pkt, hpk, -⟩ := h3 hs
      simp [hpk]
  · intro b
    obtain ⟨st, ps, pk, dl⟩ := p
    cases st
    case MsgCode =>
      obtain ⟨pkt, hpk, -⟩ := h1 rfl
      simp only at hpk
      subst hpk
      simp only [Parser.parse]
      repeat' split
      all_goals simp
    case MsgData =>
      obtain ⟨pkt, hpk, -⟩ := h3 rfl
      simp only at hpk
      subst hpk
      simp only [Parser.parse]
      repeat' split
      all_goals simp
    all_goals
      simp only [Parser.parse]
      repeat' split
      all_goals simp

/-- C9 witness: parse does not panic on the fresh parser at byte 0. -/
theorem parse_panic_free_witness : ((Parser.new).parse 0).isSome :=
  (parse_panic_free Reachable.init).2 0

/-- C10: whenever a reachable parser is in a state that reads peer_seq
(MsgSeq, MsgAckSeq, MsgCode, MsgLen, MsgData), peer_seq is a valid
sequence number, hence never SYNC_REQ and never SYNC_ACK. -/
theorem peer_seq_valid {p : Parser} (h : Reachable p)
    (hs : p.state = .MsgSeq ∨ p.state = .MsgAckSeq ∨ p.state = .MsgCode ∨
      p.state = .MsgLen ∨ p.state = .MsgData) :
    seqIsValid p.peer_seq = true ∧
    p.peer_seq ≠ SYNC_REQ ∧ p.peer_seq ≠ SYNC_ACK := by
  have hv := (reachable_inv h).2.2.2 hs
  obtain ⟨hv1, hv2⟩ : 0 < p.peer_seq ∧ p.peer_seq < 0xf0 := by
    simpa [seqIsValid] using hv
  refine ⟨hv, ?_, ?_⟩
  · simp only [SYNC_REQ]
    omega
  · simp only [SYNC_ACK]
    omega

/-- C10 witness: the parser reached by feeding SYNC_ACK then 1. -/
theorem peer_seq_valid_witness :
    seqIsValid (Parser.mk .MsgSeq 1 none 0).peer_seq = true ∧
    (Parser.mk .MsgSeq 1 none 0).peer_seq ≠ SYNC_REQ ∧
    (Parser.mk .MsgSeq 1 none 0).peer_seq ≠ SYNC_ACK := by
  have h1 : Parser.new.parse 0xfe =
      some (⟨.SyncAckSeq, 0, none, 0⟩, ⟨0, SYNC_STATE_RECV, none⟩) := by decide
  have h2 : (Parser.mk .SyncAckSeq 0 none 0).parse 1 =
      some (⟨.MsgSeq, 1, none, 0⟩, ⟨0, SYNC_STATE_READY, none⟩) := by decide
  exact peer_seq_valid
    (Reachable.parseStep (Reachable.parseStep Reachable.init h1) h2)
    (Or.inl rfl)

/-- C6: every packet emitted by a parse call on a reachable parser has
its reserved code bits 0x70 cleared. -/
theorem emitted_code_reserved {p p2 : Parser} {b : Nat} {r : ParseResult}
    {pkt : Packet} (h : Reachable p) (hp : p.parse b = some (p2, r))
    (hpkt : r.packet = some pkt) : pkt.code &&& 0x70 = 0 := by
  obtain ⟨h1, h2, h3, h4⟩ := reachable_inv h
  obtain ⟨st, ps, pk, dl⟩ := p
  cases st
  case MsgCode =>
    obtain ⟨pkt0, hpk, -⟩ := h1 rfl
    simp only at hpk
    subst hpk
    simp only [Parser.parse, Parser.transitAndResult, Parser.packetReady,
      Parser.resultFromState] at hp
    repeat' split at hp
    all_goals
      obtain ⟨-, hr⟩ := Prod.mk.inj (Option.some.inj hp)
      subst hr
      simp at hpkt
    subst hpkt
    exact masked_code_reserved b
  case MsgLen =>
    obtain ⟨pkt0, hpk, -, hcode⟩ := h2 rfl
    simp only at hpk
    subst hpk
    simp only [Parser.parse, Parser.transitAndResult, Parser.packetReady,
      Parser.reset, Parser.resultFromState] at hp
    repeat' split at hp
    all_goals
      obtain ⟨-, hr⟩ := Prod.mk.inj (Option.some.inj hp)
      subst hr
      simp at hpkt
    subst hpkt
    exact hcode
  case MsgData =>
    obtain ⟨pkt0, hpk, hcode, -, -⟩ := h3 rfl
    simp only at hpk
    subst hpk
    simp only [Parser.parse, Parser.transitAndResult, Parser.packetReady,
      Parser.resultFromState] at hp
    repeat' split at hp
    all_goals
      obtain ⟨-, hr⟩ := Prod.mk.inj (Option.some.inj hp)
      subst hr
      simp at hpkt
    subst hpkt
    exact hcode
  all_goals
    simp only [Parser.parse, Parser.transitAndResult, Parser.reset,
      Parser.resultFromState] at hp
    repeat' split at hp
    all_goals
      obtain ⟨-, hr⟩ := Prod.mk.inj (Option.some.inj hp)
      subst hr
      simp at hpkt

/-- C6 witness: the handshake then frame [1, 0x02] emits packet
(seq=1, code=2, data=[]) whose reserved bits are clear. -/
theorem emitted_code_reserved_witness : (Packet.mk 1 2 []).code &&& 0x70 = 0 := by
  have h1 : Parser.new.parse 0xfe =
      some (⟨.SyncAckSeq, 0, none, 0⟩, ⟨0, SYNC_STATE_RECV, none⟩) := by decide
  have h2 : (Parser.mk .SyncAckSeq 0 none 0).parse 1 =
      some (⟨.MsgSeq, 1, none, 0⟩, ⟨0, SYNC_STATE_READY, none⟩) := by decide
  have h3 : (Parser.mk .MsgSeq 1 none 0).parse 1 =
      some (⟨.MsgCode, 2, some ⟨1, 0, []⟩, 0⟩,
        ⟨0, SYNC_STATE_READY ||| SYNC_STATE_RECV, none⟩) := by decide
  have h4 : (Parser.mk .MsgCode 2 (some ⟨1, 0, []⟩) 0).parse 2 =
      some (⟨.MsgSeq, 2, none, 0⟩,
        ⟨0, SYNC_STATE_READY, some ⟨1, 2, []⟩⟩) := by decide
  exact emitted_code_reserved
    (Reachable.parseStep
      (Reachable.parseStep (Reachable.parseStep Reachable.init h1) h2) h3)
    h4 rfl

/-- C7: every packet emitted by a parse call on a reachable parser
carries exactly the payload length declared on the wire (the length
nibble from the MsgCode byte, the ext length byte in MsgLen, or the
accumulated data_len in MsgData), and that length is at most 127;
moreover an ext length byte with the high bit set makes the parser
reset instead of accepting. -/
theorem emitted_len_law {p : Parser} {b : Nat} (h : Reachable p) :
    (∀ p2 r pkt, p.parse b = some (p2, r) → r.packet = some pkt →
      pkt.data.length ≤ 127 ∧
      (p.state = .MsgCode → pkt.data.length = (b >>> 4) &&& 7) ∧
      (p.state = .MsgLen → pkt.data.length = b) ∧
      (p.state = .MsgData → pkt.data.length = p.data_len)) ∧
    (p.state = .MsgLen → 0x80 ≤ b →
      p.parse b = some ({ p with state := .SyncAck }, ⟨SYNC_REQ, 0, none⟩)) := by
  obtain ⟨h1, h2, h3, h4⟩ := reachable_inv h
  obtain ⟨st, ps, pk, dl⟩ := p
  constructor
  · intro p2 r pkt hp hpkt
    cases st
    case MsgCode =>
      obtain ⟨pkt0, hpk, hdata⟩ := h1 rfl
      simp only at hpk
      subst hpk
      simp only [Parser.parse, Parser.transitAndResult, Parser.packetReady,
        Parser.resultFromState] at hp
      repeat' split at hp
      all_goals
        obtain ⟨-, hr⟩ := Prod.mk.inj (Option.some.inj hp)
        subst hr
        simp at hpkt
      subst hpkt
      exact ⟨by simp [hdata], by simp [hdata, *], by simp, by simp⟩
    case MsgLen =>
      obtain ⟨pkt0, hpk, hdata, -⟩ := h2 rfl
      simp only at hpk
      subst hpk
      simp only [Parser.parse, Parser.transitAndResult, Parser.packetReady,
        Parser.reset, Parser.resultFromState] at hp
      repeat' split at hp
      all_goals
        obtain ⟨-, hr⟩ := Prod.mk.inj (Option.some.inj hp)
        subst hr
        simp at hpkt
      subst hpkt
      exact ⟨by simp [hdata], by simp, by simp [hdata, *], by simp⟩
    case MsgData =>
      obtain ⟨pkt0, hpk, -, hlt, hmax⟩ := h3 rfl
      simp only at hpk hlt hmax
      subst hpk
      simp only [Parser.parse, Parser.transitAndResult, Parser.packetReady,
        Parser.resultFromState] at hp
      repeat' split at hp
      all_goals
        obtain ⟨-, hr⟩ := Prod.mk.inj (Option.some.inj hp)
        subst hr
        simp at hpkt
      rename_i hge
      subst hpkt
      refine ⟨?_, by simp, by simp, ?_⟩
      · simp only [List.length_append, List.length_cons, List.length_nil]
        omega
      · intro
        show (pkt0.data ++ [b]).length = dl
        simp only [List.length_append, List.length_cons, List.length_nil]
          at hge ⊢
        omega
    all_goals
      simp only [Parser.parse, Parser.transitAndResult, Parser.reset,
        Parser.resultFromState] at hp
      repeat' split at hp
      all_goals
        obtain ⟨-, hr⟩ := Prod.mk.inj (Option.some.inj hp)
        subst hr
        simp at hpkt
  · intro hs hb
    cases st
    case MsgLen =>
      simp only [Parser.parse]
      rw [if_pos hb]
      rfl
    all_goals simp at hs

/-- C7 witness: a reachable parser awaiting an ext length byte resets
on 0x80. -/
theorem emitted_len_law_witness :
    (Parser.mk .MsgLen 2 (some ⟨1, 0, []⟩) 0).parse 0x80 =
      some (Parser.mk .SyncAck 2 (some ⟨1, 0, []⟩) 0, ⟨SYNC_REQ, 0, none⟩) := by
  have h1 : Parser.new.parse 0xfe =
      some (⟨.SyncAckSeq, 0, none, 0⟩, ⟨0, SYNC_STATE_RECV, none⟩) := by decide
  have h2 : (Parser.mk .SyncAckSeq 0 none 0).parse 1 =
      some (⟨.MsgSeq, 1, none, 0⟩, ⟨0, SYNC_STATE_READY, none⟩) := by decide
  have h3 : (Parser.mk .MsgSeq 1 none 0).parse 1 =
      some (⟨.MsgCode, 2, some ⟨1, 0, []⟩, 0⟩,
        ⟨0, SYNC_STATE_READY ||| SYNC_STATE_RECV, none⟩) := by decide
  have h4 : (Parser.mk .MsgCode 2 (some ⟨1, 0, []⟩) 0).parse 0x70 =
      some (⟨.MsgLen, 2, some ⟨1, 0, []⟩, 0⟩,
        ⟨0, SYNC_STATE_READY ||| SYNC_STATE_RECV, none⟩) := by decide
  exact (emitted_len_law
    (Reachable.parseStep (Reachable.parseStep
      (Reachable.parseStep (Reachable.parseStep Reachable.init h1) h2) h3)
      h4)).2 rfl (by norm_num)

/-- The step that completes the first successful sync: a valid sequence
byte consumed while awaiting the peer's initial sequence (SyncReqSeq or
SyncAckSeq). -/
def syncCompleting (p : Parser) (b : Nat) : Bool :=
  (decide (p.state = .SyncReqSeq) || decide (p.state = .SyncAckSeq)) &&
    seqIsValid b

/-- Along a byte list, every parse result advises NoChange or Restart
(never Stop) until a sync-completing step happens. -/
def noStopBeforeSync : Parser → List Nat → Prop
  | _, [] => True
  | p, b :: bs =>
    ∀ p2 r, p.parse b = some (p2, r) →
      if syncCompleting p b then True
      else (r.timer_action = .NoChange ∨ r.timer_action = .Restart) ∧
        noStopBeforeSync p2 bs

/-- From any pre-sync state, no Stop is advised before the first
successful sync. -/
theorem noStop_of_preSync (bs : List Nat) :
    ∀ p : Parser,
      (p.state = .SyncAck ∨ p.state = .SyncReqSeq ∨ p.state = .SyncAckSeq) →
      noStopBeforeSync p bs := by
  induction bs with
  | nil =>
    intro p hpre
    exact True.intro
  | cons b bs ih =>
    intro p hpre p2 r hp
    by_cases hc : syncCompleting p b = true
    · simp [hc]
    · rw [if_neg hc]
      obtain ⟨st, ps, pk, dl⟩ := p
      simp only at hpre
      rcases hpre with hpre | hpre | hpre
      all_goals subst hpre
      · simp only [Parser.parse, Parser.transitAndResult,
          Parser.resultFromState] at hp
        split at hp
        · obtain ⟨hp2, hr⟩ := Prod.mk.inj (Option.some.inj hp)
          subst hp2
          subst hr
          exact ⟨Or.inr (by decide), ih _ (Or.inr (Or.inl rfl))⟩
        split at hp
        · obtain ⟨hp2, hr⟩ := Prod.mk.inj (Option.some.inj hp)
          subst hp2
          subst hr
          exact ⟨Or.inr (by decide), ih _ (Or.inr (Or.inr rfl))⟩
        · obtain ⟨hp2, hr⟩ := Prod.mk.inj (Option.some.inj hp)
          subst hp2
          subst hr
          exact ⟨Or.inl (by decide), ih _ (Or.inl rfl)⟩
      · have hv : ¬ (seqIsValid b = true) := by
          simpa [syncCompleting] using hc
        simp only [Parser.parse, Parser.reset] at hp
        rw [if_neg hv] at hp
        obtain ⟨hp2, hr⟩ := Prod.mk.inj (Option.some.inj hp)
        subst hp2
        subst hr
        exact ⟨Or.inr (by decide), ih _ (Or.inl rfl)⟩
      · have hv : ¬ (seqIsValid b = true) := by
          simpa [syncCompleting] using hc
        simp only [Parser.parse, Parser.reset] at hp
        rw [if_neg hv] at hp
        obtain ⟨hp2, hr⟩ := Prod.mk.inj (Option.some.inj hp)
        subst hp2
        subst hr
        exact ⟨Or.inr (by decide), ih _ (Or.inl rfl)⟩

/-- C3: timer monotonicity: for any byte sequence fed to a fresh
Parser, no result advises Stop before the call that completes the
first successful sync; every earlier result advises NoChange or
Restart. -/
theorem timer_no_stop_before_sync (bs : List Nat) :
    noStopBeforeSync Parser.new bs :=
  noStop_of_preSync bs Parser.new (Or.inl rfl)

/-- Header byte with an embedded length nibble below 7: the nibble
decodes back to the length. -/
theorem header_nibble :
    ∀ c < 256, ∀ l < 7,
      (((c &&& 0x8f) ||| ((l <<< 4) &&& 0x70)) >>> 4) &&& 7 = l := by
  decide

/-- Header byte with an embedded length nibble below 7: masking with
0x8f recovers the masked code. -/
theorem header_code :
    ∀ c < 256, ∀ l < 7,
      ((c &&& 0x8f) ||| ((l <<< 4) &&& 0x70)) &&& 0x8f = c &&& 0x8f := by
  decide

/-- Escape header byte: the nibble decodes to 7. -/
theorem header_nibble_ext :
    ∀ c < 256, (((c &&& 0x8f) ||| 0x70) >>> 4) &&& 7 = 7 := by
  decide

/-- Escape header byte: masking with 0x8f recovers the masked code. -/
theorem header_code_ext :
    ∀ c < 256, ((c &&& 0x8f) ||| 0x70) &&& 0x8f = c &&& 0x8f := by
  decide

/-- feed distributes over list append. -/
theorem feed_append (p : Parser) (xs ys : List Nat) :
    p.feed (xs ++ ys) =
      match p.feed xs with
      | none => none
      | some (p2, rs) =>
        match p2.feed ys with
        | none => none
        | some (p3, rs2) => some (p3, rs ++ rs2) := by
  induction xs generalizing p with
  | nil =>
    simp only [List.nil_append, Parser.feed]
    cases p.feed ys with
    | none => rfl
    | some pr => rfl
  | cons x xs ih =>
    simp only [List.cons_append, Parser.feed]
    cases hx : p.parse x with
    | none => rfl
    | some pr =>
      obtain ⟨p2, r⟩ := pr
      simp only
      rw [show p2.feed (xs.append ys) = p2.feed (xs ++ ys) from rfl, ih p2]
      cases p2.feed xs with
      | none => rfl
      | some pr2 =>
        obtain ⟨p3, rs⟩ := pr2
        simp only
        cases p3.feed ys with
        | none => rfl
        | some pr3 =>
          obtain ⟨p4, rs2⟩ := pr3
          simp

/-- One feed step from a known parse result. -/
theorem feed_cons (p : Parser) (b : Nat) (bs : List Nat) (p2 : Parser)
    (r : ParseResult) (h : p.parse b = some (p2, r)) :
    p.feed (b :: bs) =
      match p2.feed bs with
      | none => none
      | some (p3, rs) => some (p3, r :: rs) := by
  simp only [Parser.feed, h]

/-- The byte sequence of an encoded packet, spelled out. -/
theorem enc_eq (p : Packet) (h : p.data.length ≤ 127) :
    enc p =
      if p.data.length < 7 then
        [p.seq, (p.code &&& 0x8f) ||| ((p.data.length <<< 4) &&& 0x70)] ++
          p.data
      else
        [p.seq, (p.code &&& 0x8f) ||| 0x70, p.data.length] ++ p.data := by
  have hm : p.data.length % 256 = p.data.length := Nat.mod_eq_of_lt (by omega)
  unfold enc
  by_cases h7 : p.data.length < 7
  · by_cases h0 : p.data.length = 0
    · have hd : p.data = [] := List.length_eq_zero.mp h0
      simp [Packet.encode, ByteSink.write, hm, h7, hd]
    · have hpos : 0 < p.data.length := Nat.pos_of_ne_zero h0
      simp [Packet.encode, ByteSink.write, hm, h7, hpos]
  · have hpos : 0 < p.data.length := by omega
    simp [Packet.encode, ByteSink.write, hm, h7, hpos]

/-- The handshake SYNC_ACK, s from a fresh parser lands in MsgSeq with
peer_seq = s. -/
theorem feed_sync (s : Nat) (h1 : 1 ≤ s) (h2 : s ≤ 0xef) :
    Parser.new.feed [SYNC_ACK, s] =
      some (⟨.MsgSeq, s, none, 0⟩,
        [⟨0, SYNC_STATE_RECV, none⟩, ⟨0, SYNC_STATE_READY, none⟩]) := by
  have hv : seqIsValid s = true := by
    simp only [seqIsValid, Bool.and_eq_true, decide_eq_true_eq]
    omega
  have hstep1 : Parser.new.parse SYNC_ACK =
      some (⟨.SyncAckSeq, 0, none, 0⟩, ⟨0, SYNC_STATE_RECV, none⟩) := by
    decide
  have hstep2 : (Parser.mk .SyncAckSeq 0 none 0).parse s =
      some (⟨.MsgSeq, s, none, 0⟩, ⟨0, SYNC_STATE_READY, none⟩) := by
    simp only [Parser.parse]
    rw [if_pos hv]
    rfl
  rw [feed_cons _ _ _ _ _ hstep1, feed_cons _ _ _ _ _ hstep2]
  simp [Parser.feed]

/-- Consuming the expected sequence byte in MsgSeq starts a packet. -/
theorem parse_msgSeq_start (s dlen : Nat) (pk : Option Packet)
    (h1 : 1 ≤ s) (h2 : s ≤ 0xef) :
    (Parser.mk .MsgSeq s pk dlen).parse s =
      some (⟨.MsgCode, seqNext s, some ⟨s, 0, []⟩, dlen⟩,
        ⟨0, SYNC_STATE_READY ||| SYNC_STATE_RECV, none⟩) := by
  simp only [Parser.parse]
  rw [if_neg (by simp only [SYNC_REQ]; omega : ¬ s = SYNC_REQ)]
  rw [if_neg (by simp only [SYNC_ACK]; omega : ¬ s = SYNC_ACK)]
  rw [if_pos trivial]
  rfl

/-- The MsgCode arm, as a function of the code byte. -/
theorem parse_msgCode_step (b sq c0 ps dlen : Nat) (d0 : List Nat) :
    (Parser.mk .MsgCode ps (some ⟨sq, c0, d0⟩) dlen).parse b =
      if (b >>> 4) &&& 7 = 0 then
        some (⟨.MsgSeq, ps, none, dlen⟩,
          ⟨0, SYNC_STATE_READY, some ⟨sq, b &&& 0x8f, d0⟩⟩)
      else if (b >>> 4) &&& 7 = 7 then
        some (⟨.MsgLen, ps, some ⟨sq, b &&& 0x8f, d0⟩, dlen⟩,
          ⟨0, SYNC_STATE_READY ||| SYNC_STATE_RECV, none⟩)
      else
        some (⟨.MsgData, ps, some ⟨sq, b &&& 0x8f, d0⟩, (b >>> 4) &&& 7⟩,
          ⟨0, SYNC_STATE_READY ||| SYNC_STATE_RECV, none⟩) := rfl

/-- The MsgLen arm on a legal non-zero extended length byte. -/
theorem parse_msgLen_step (b sq c0 ps dlen : Nat) (d0 : List Nat)
    (hlow : b < 0x80) (h0 : b ≠ 0) :
    (Parser.mk .MsgLen ps (some ⟨sq, c0, d0⟩) dlen).parse b =
      some (⟨.MsgData, ps, some ⟨sq, c0, d0⟩, b⟩,
        ⟨0, SYNC_STATE_READY ||| SYNC_STATE_RECV, none⟩) := by
  simp only [Parser.parse]
  rw [if_neg (by omega : ¬ b ≥ 0x80), if_neg h0]
  rfl

/-- Feeding exactly the missing payload bytes completes the packet,
whose data is the accumulator followed by those bytes. -/
theorem feed_data (ds : List Nat) :
    ∀ (acc : List Nat) (sq c ps dlen : Nat),
      ds ≠ [] →
      acc.length + ds.length = dlen →
      ∃ rs, (Parser.mk .MsgData ps (some ⟨sq, c, acc⟩) dlen).feed ds =
        some (⟨.MsgSeq, ps, none, dlen⟩,
          rs ++ [⟨0, SYNC_STATE_READY, some ⟨sq, c, acc ++ ds⟩⟩]) := by
  induction ds with
  | nil =>
    intro acc sq c ps dlen hne hlen
    exact absurd rfl hne
  | cons d ds ih =>
    intro acc sq c ps dlen hne hlen
    cases ds with
    | nil =>
      refine ⟨[], ?_⟩
      have hstep : (Parser.mk .MsgData ps (some ⟨sq, c, acc⟩) dlen).parse d =
          some (⟨.MsgSeq, ps, none, dlen⟩,
            ⟨0, SYNC_STATE_READY, some ⟨sq, c, acc ++ [d]⟩⟩) := by
        simp only [Parser.parse]
        rw [if_pos (by
          simp only [List.length_append, List.length_cons, List.length_nil]
            at hlen ⊢
          omega)]
        rfl
      rw [feed_cons _ _ _ _ _ hstep]
      simp [Parser.feed]
    | cons d2 ds2 =>
      have hstep : (Parser.mk .MsgData ps (some ⟨sq, c, acc⟩) dlen).parse d =
          some (⟨.MsgData, ps, some ⟨sq, c, acc ++ [d]⟩, dlen⟩,
            ⟨0, SYNC_STATE_READY ||| SYNC_STATE_RECV, none⟩) := by
        simp only [Parser.parse]
        rw [if_neg (by
          simp only [List.length_append, List.length_cons, List.length_nil]
            at hlen ⊢
          omega)]
        rfl
      obtain ⟨rs, hrs⟩ := ih (acc ++ [d]) sq c ps dlen (by simp)
        (by simp only [List.length_append, List.length_cons,
              List.length_nil] at hlen ⊢
            omega)
      refine ⟨⟨0, SYNC_STATE_READY ||| SYNC_STATE_RECV, none⟩ :: rs, ?_⟩
      rw [feed_cons _ _ _ _ _ hstep, hrs]
      simp

/-- Masking with 0x8f is idempotent. -/
theorem land_mask_idem (c : Nat) : (c &&& 0x8f) &&& 0x8f = c &&& 0x8f := by
  rw [Nat.land_assoc, show (0x8f &&& 0x8f : Nat) = 0x8f from by decide]

/-- Feeding enc of a packet into a synchronized parser expecting its
sequence number: the final result carries the decoded packet. -/
theorem feed_frame (sq c : Nat) (ds : List Nat) (hlen : ds.length ≤ 127)
    (hcode : c < 256) (hs1 : 1 ≤ sq) (hs2 : sq ≤ 0xef) :
    ∃ p3 rs, (Parser.mk .MsgSeq sq none 0).feed (enc ⟨sq, c, ds⟩) =
      some (p3, rs ++ [⟨0, SYNC_STATE_READY, some ⟨sq, c &&& 0x8f, ds⟩⟩]) := by
  rw [enc_eq ⟨sq, c, ds⟩ hlen]
  simp only [List.cons_append, List.nil_append]
  have hstart := parse_msgSeq_start sq 0 none hs1 hs2
  by_cases h7 : ds.length < 7
  · rw [if_pos h7]
    have hnib := header_nibble c hcode ds.length h7
    have hcd := header_code c hcode ds.length h7
    by_cases h0 : ds.length = 0
    · have hd : ds = [] := List.length_eq_zero.mp h0
      subst hd
      refine ⟨⟨.MsgSeq, seqNext sq, none, 0⟩,
        [⟨0, SYNC_STATE_READY ||| SYNC_STATE_RECV, none⟩], ?_⟩
      have hstep2 : (Parser.mk .MsgCode (seqNext sq) (some ⟨sq, 0, []⟩) 0).parse
          ((c &&& 0x8f) ||| ((List.length ([] : List Nat) <<< 4) &&& 0x70)) =
          some (⟨.MsgSeq, seqNext sq, none, 0⟩,
            ⟨0, SYNC_STATE_READY,
              some ⟨sq, ((c &&& 0x8f) |||
                ((List.length ([] : List Nat) <<< 4) &&& 0x70)) &&& 0x8f,
                []⟩⟩) := by
        rw [parse_msgCode_step, if_pos (by rw [hnib]; rfl)]
      rw [feed_cons _ _ _ _ _ hstart, feed_cons _ _ _ _ _ hstep2]
      simp [Parser.feed, hcd, land_mask_idem]
    · have hne : ds ≠ [] := by
        intro hd
        rw [hd] at h0
        exact h0 rfl
      obtain ⟨rs2, hrs2⟩ := feed_data ds [] sq (c &&& 0x8f) (seqNext sq)
        ds.length hne (by simp)
      refine ⟨⟨.MsgSeq, seqNext sq, none, ds.length⟩,
        ⟨0, SYNC_STATE_READY ||| SYNC_STATE_RECV, none⟩ ::
          ⟨0, SYNC_STATE_READY ||| SYNC_STATE_RECV, none⟩ :: rs2, ?_⟩
      have hstep2 : (Parser.mk .MsgCode (seqNext sq) (some ⟨sq, 0, []⟩) 0).parse
          ((c &&& 0x8f) ||| ((ds.length <<< 4) &&& 0x70)) =
          some (⟨.MsgData, seqNext sq,
            some ⟨sq, ((c &&& 0x8f) ||| ((ds.length <<< 4) &&& 0x70)) &&& 0x8f, []⟩,
            (((c &&& 0x8f) ||| ((ds.length <<< 4) &&& 0x70)) >>> 4) &&& 7⟩,
            ⟨0, SYNC_STATE_READY ||| SYNC_STATE_RECV, none⟩) := by
        rw [parse_msgCode_step,
          if_neg (by rw [hnib]; exact h0),
          if_neg (by rw [hnib]; omega)]
      rw [feed_cons _ _ _ _ _ hstart, feed_cons _ _ _ _ _ hstep2, hnib, hcd,
        hrs2]
      simp
  · rw [if_neg h7]
    have hnib := header_nibble_ext c hcode
    have hcd := header_code_ext c hcode
    have hne : ds ≠ [] := by
      intro hd
      rw [hd] at h7
      simp at h7
    obtain ⟨rs2, hrs2⟩ := feed_data ds [] sq (c &&& 0x8f) (seqNext sq)
      ds.length hne (by simp)
    refine ⟨⟨.MsgSeq, seqNext sq, none, ds.length⟩,
      ⟨0, SYNC_STATE_READY ||| SYNC_STATE_RECV, none⟩ ::
        ⟨0, SYNC_STATE_READY ||| SYNC_STATE_RECV, none⟩ ::
        ⟨0, SYNC_STATE_READY ||| SYNC_STATE_RECV, none⟩ :: rs2, ?_⟩
    have hstep2 : (Parser.mk .MsgCode (seqNext sq) (some ⟨sq, 0, []⟩) 0).parse
        ((c &&& 0x8f) ||| 0x70) =
        some (⟨.MsgLen, seqNext sq,
          some ⟨sq, ((c &&& 0x8f) ||| 0x70) &&& 0x8f, []⟩, 0⟩,
          ⟨0, SYNC_STATE_READY ||| SYNC_STATE_RECV, none⟩) := by
      rw [parse_msgCode_step,
        if_neg (by rw [hnib]; omega),
        if_pos (by rw [hnib])]
    have hstep3 := parse_msgLen_step ds.length sq
      (((c &&& 0x8f) ||| 0x70) &&& 0x8f) (seqNext sq) 0 []
      (by omega) (by omega)
    rw [feed_cons _ _ _ _ _ hstart, feed_cons _ _ _ _ _ hstep2,
      feed_cons _ _ _ _ _ hstep3, hcd, hrs2]
    simp

/-- C1: encode round-trip: after synchronizing a fresh Parser on the
packet's sequence number (feed SYNC_ACK then pkt.seq) and then feeding
enc(pkt) byte by byte, the final ParseResult carries a packet with the
same seq and data and with code masked by 0x8f. -/
theorem encode_roundtrip (pkt : Packet) (hlen : pkt.data.length ≤ 127)
    (hcode : pkt.code < 256) (hs1 : 1 ≤ pkt.seq) (hs2 : pkt.seq ≤ 0xef) :
    ∃ p3 rs,
      Parser.new.feed ([SYNC_ACK, pkt.seq] ++ enc pkt) = some (p3, rs) ∧
      rs.getLast? = some ⟨0, SYNC_STATE_READY,
        some ⟨pkt.seq, pkt.code &&& 0x8f, pkt.data⟩⟩ := by
  obtain ⟨sq, c, ds⟩ := pkt
  simp only at hlen hcode hs1 hs2
  obtain ⟨p3, rs2, hrs2⟩ := feed_frame sq c ds hlen hcode hs1 hs2
  rw [feed_append, feed_sync sq hs1 hs2]
  simp only
  rw [hrs2]
  refine ⟨p3,
    ([⟨0, SYNC_STATE_RECV, none⟩, ⟨0, SYNC_STATE_READY, none⟩] ++ rs2) ++
      [⟨0, SYNC_STATE_READY, some ⟨sq, c &&& 0x8f, ds⟩⟩], ?_, ?_⟩
  · simp
  · exact List.getLast?_concat _

/-- C1 witness at the packet (seq=1, code=2, data=[5]). -/
theorem encode_roundtrip_witness :
    ∃ p3 rs,
      Parser.new.feed ([SYNC_ACK, 1] ++ enc ⟨1, 2, [5]⟩) = some (p3, rs) ∧
      rs.getLast? = some ⟨0, SYNC_STATE_READY,
        some ⟨1, 2 &&& 0x8f, [5]⟩⟩ :=
  encode_roundtrip ⟨1, 2, [5]⟩ (by decide) (by decide) (by decide) (by decide)
